import Mathlib

/-!
Verification development for the Tax_invoice_CSV extraction pipeline.

The Python sources are shallowly embedded as executable Lean definitions:
  * strings are Lean `String`s, manipulated through their character lists
    (`String.data`) with structural recursion, so every definition is
    computable and kernel-reducible;
  * Python `float()` applied to decimal strings is modelled by an exact
    rational parser `parseDecimal?` (sign, digits, optional fraction and
    exponent; `inf`/`nan` and digit-group underscores are not modelled, and
    arithmetic is exact rational rather than IEEE-754 binary64);
  * the mutable invoice record (a Python `dict`) is modelled as an ordered
    association list with first-occurrence lookup (`dGet`) and in-place
    update / append (`dSet`), matching `dict.get` / `dict.__setitem__`;
  * `pdfplumber`'s `page.crop(box).extract_text()` is an external
    collaborator (spec section 6) and is modelled as an oracle field
    `Page.crop`, so theorems about the geometric cascade quantify over
    every possible crop result;
  * regular expressions from the source are fixed, concrete patterns and
    are embedded directly as character-class scanners with the same
    leftmost / non-overlapping match semantics.
-/

/-! ## Character and string helpers -/

/-- Python `\w` (ASCII fragment): letters, digits and underscore. -/
def isWordChar (c : Char) : Bool := c.isAlphanum || c == '_'

/-- ASCII uppercase letter test, the `[A-Z]` character class. -/
def isUpperAZ (c : Char) : Bool := 'A' ≤ c && c ≤ 'Z'

/-- ASCII letter test, the `[A-Z]` class under `re.IGNORECASE`. -/
def isLetterCI (c : Char) : Bool := isUpperAZ c || ('a' ≤ c && c ≤ 'z')

/-- Lowercased character list of a string, modelling Python `str.lower()`
on the ASCII strings handled by this program. -/
def lowerChars (s : String) : List Char := s.data.map Char.toLower

/-- Lowercased string, modelling Python `str.lower()`. -/
def lowerStr (s : String) : String := String.mk (lowerChars s)

/-- Uppercased string, modelling Python `str.upper()`. -/
def upperStr (s : String) : String := String.mk (s.data.map Char.toUpper)

/-- Python `any(c.isdigit() for c in s)`. -/
def hasDigit (s : String) : Bool := s.data.any Char.isDigit

/-- Python `"₹" in s`. -/
def hasRupee (s : String) : Bool := s.data.any (fun c => c == '₹')

/-- Worker for `pysplit`: accumulates the current word (reversed). -/
def splitWordsAux : List Char → List Char → List String
  | [], acc => if acc.isEmpty then [] else [String.mk acc.reverse]
  | c :: rest, acc =>
    if c.isWhitespace then
      if acc.isEmpty then splitWordsAux rest []
      else String.mk acc.reverse :: splitWordsAux rest []
    else splitWordsAux rest (c :: acc)

/-- Python `str.split()` with no argument: split on whitespace runs,
discarding empty pieces. -/
def pysplit (s : String) : List String := splitWordsAux s.data []

/-- Python `" ".join(ws)`. -/
def joinSpace : List String → String
  | [] => ""
  | [w] => w
  | w :: rest => w ++ " " ++ joinSpace rest

/-- Drop leading and trailing whitespace from a character list. -/
def trimChars (cs : List Char) : List Char :=
  ((cs.dropWhile Char.isWhitespace).reverse.dropWhile Char.isWhitespace).reverse

/-- Python `str.strip()` with no argument. -/
def pystrip (s : String) : String := String.mk (trimChars s.data)

/-- First n characters of a string, Python `s[:n]`. -/
def takeChars (s : String) (n : Nat) : String := String.mk (s.data.take n)

/-- The `clean` helper of `extract_invoice.py` / `index.py` on a string
argument: `" ".join(text.split())`. -/
def cleanStr (s : String) : String := joinSpace (pysplit s)

/-- The `clean` helper on a possibly-`None` argument
(`if not text: return ""`). -/
def cleanOpt : Option String → String
  | none => ""
  | some t => cleanStr t

/-- Leftmost index at which `needle` occurs as a contiguous sublist of
`hay`, modelling Python `str.find` (as a character index). -/
def subIndex (hay needle : List Char) : Option Nat :=
  (List.range (hay.length + 1)).find?
    (fun i => (hay.drop i).take needle.length == needle)

/-- Numeric value of a digit string. -/
def digitsVal (cs : List Char) : Nat :=
  cs.foldl (fun n c => n * 10 + (c.toNat - 48)) 0

/-- Optional leading sign of a numeric literal. -/
def parseSign : List Char → (Int × List Char)
  | '+' :: r => (1, r)
  | '-' :: r => (-1, r)
  | cs => (1, cs)

/-- Models Python `float(s)` on decimal literals: optional surrounding
whitespace, optional sign, digits with an optional fractional part, and an
optional exponent; the value is returned as an exact rational.  `inf`,
`nan` and underscore digit separators are not modelled, and no rounding to
binary64 is performed. -/
def parseDecimal? (s : String) : Option ℚ :=
  let cs := trimChars s.data
  let p := parseSign cs
  let ip := p.2.takeWhile Char.isDigit
  let rest1 := p.2.dropWhile Char.isDigit
  let fpr : List Char × List Char :=
    match rest1 with
    | '.' :: r => (r.takeWhile Char.isDigit, r.dropWhile Char.isDigit)
    | _ => ([], rest1)
  if ip.isEmpty && fpr.1.isEmpty then none
  else
    let mant : ℚ := (p.1 : ℚ) * (digitsVal (ip ++ fpr.1) : ℚ) / ((10 : ℚ) ^ fpr.1.length)
    match fpr.2 with
    | [] => some mant
    | e :: r =>
      if e == 'e' || e == 'E' then
        let q := parseSign r
        let ed := q.1
        let eds := q.2.takeWhile Char.isDigit
        let r2 := q.2.dropWhile Char.isDigit
        if eds.isEmpty || !r2.isEmpty then none
        else some (mant * (10 : ℚ) ^ (ed * (digitsVal eds : Int)))
      else none

/-! ## Record model: Python dict of extracted fields (`v2.py`) -/

/-- A JSON/dict value as handled by `validate_and_fix_taxes` in `v2.py`:
`None`, a string, or a number (the generative model may emit either). -/
inductive PyVal where
  | vNull : PyVal
  | vStr : String → PyVal
  | vNum : ℚ → PyVal
deriving DecidableEq, Repr

/-- The extracted-record dict, as an ordered association list. -/
abbrev Record := List (String × PyVal)

/-- Python `data.get(key)`: first binding wins, missing keys read as
`None`. -/
def dGet : Record → String → PyVal
  | [], _ => PyVal.vNull
  | p :: rest, k => if p.1 = k then p.2 else dGet rest k

/-- Python `data[key] = v`: replace the (first) existing binding in place,
otherwise append, preserving dict insertion order. -/
def dSet : Record → String → PyVal → Record
  | [], k, v => [(k, v)]
  | p :: rest, k, v => if p.1 = k then (k, v) :: rest else p :: dSet rest k v

/-! ## Tax Reconciler (`validate_and_fix_taxes`, `v2.py` lines 290-324) -/

/-- The strings treated as null markers in `validate_and_fix_taxes`. -/
def nullWords : List String := ["null", "none", "n/a", ""]

/-- Models `re.sub(r'[₹$,\s]', '', s)`: drop currency markers, dollar
signs, commas and whitespace. -/
def stripCurrency (s : String) : String :=
  String.mk (s.data.filter (fun c => !(c == '₹' || c == '$' || c == ',' || c.isWhitespace)))

/-- The per-value effect of the first loop of `validate_and_fix_taxes`:
a string that lowercases to a null marker becomes `None`, any other
string is currency-stripped in place, non-strings are untouched. -/
def normTax : PyVal → PyVal
  | PyVal.vStr s =>
    if nullWords.contains (lowerStr s) then PyVal.vNull
    else PyVal.vStr (stripCurrency s)
  | v => v

/-- One iteration of the first loop of `validate_and_fix_taxes` for key
`k` (`if isinstance(data.get(key), str): ...`). -/
def stripKey (d : Record) (k : String) : Record :=
  match dGet d k with
  | PyVal.vStr s =>
    if nullWords.contains (lowerStr s) then dSet d k PyVal.vNull
    else dSet d k (PyVal.vStr (stripCurrency s))
  | _ => d

/-- The whole first loop, over `["CGST", "SGST", "IGST"]` in order. -/
def stripPhase (d : Record) : Record :=
  stripKey (stripKey (stripKey d "CGST") "SGST") "IGST"

/-- `is_valid_amount` from `validate_and_fix_taxes`: non-`None` and
parses to a strictly positive number (parse failures are `False` via the
bare `except`). -/
def is_valid_amount : PyVal → Bool
  | PyVal.vNull => false
  | PyVal.vStr s =>
    match parseDecimal? s with
    | some q => decide (0 < q)
    | none => false
  | PyVal.vNum q => decide (0 < q)

/-- Models `float(v or 0)`: falsy values (`None`, `""`, `0`) give `0`,
other strings are parsed (`none` = the uncaught `ValueError`). -/
def pyFloatOr0 : PyVal → Option ℚ
  | PyVal.vNull => some 0
  | PyVal.vStr s => if s = "" then some 0 else parseDecimal? s
  | PyVal.vNum q => some q

/-- `validate_and_fix_taxes` from `v2.py`.  The returned `Option` records
the uncaught `ValueError` raised by `float(...)` when a non-null,
non-numeric string sits next to a valid amount (`none` = exception). -/
def validate_and_fix_taxes (d : Record) : Option Record :=
  if (is_valid_amount (dGet (stripPhase d) "CGST")
      || is_valid_amount (dGet (stripPhase d) "SGST"))
     && is_valid_amount (dGet (stripPhase d) "IGST") then
    match pyFloatOr0 (dGet (stripPhase d) "CGST"),
          pyFloatOr0 (dGet (stripPhase d) "SGST"),
          pyFloatOr0 (dGet (stripPhase d) "IGST") with
    | some qc, some qs, some qi =>
      if qi < qc + qs then some (dSet (stripPhase d) "IGST" PyVal.vNull)
      else some (dSet (dSet (stripPhase d) "CGST" PyVal.vNull) "SGST" PyVal.vNull)
    | _, _, _ => none
  else some (stripPhase d)

/-! ## Label configuration (`extract_invoice.py` / `index.py`) -/

/-- `ALL_LABELS = {v.lower() for v in LABELS.values()}`.  Python builds a
*set*, whose iteration order is unspecified (hash-randomised); this list
records the members in the `LABELS` dict's insertion order, and every
definition whose result depends on the iteration order takes the order as
an explicit `List String` parameter instead. -/
def ALL_LABELS : List String :=
  ["invoice no", "bill from", "bill to", "invoice date", "cgst", "sgst", "total"]

/-- `COLUMN_TABLE_FIELDS` (a set used only through membership tests). -/
def COLUMN_TABLE_FIELDS : List String := ["CGST", "SGST", "Total"]

/-! ## Field Normalizer (`normalize_bill_data`) -/

/-- Match of `\bPP\d{6,}\b` under `re.IGNORECASE` anchored at character
index `i`: a word boundary, `PP` case-insensitively, a maximal run of at
least six digits, and a trailing word boundary. -/
def ppMatchAt (cs : List Char) (i : Nat) : Option String :=
  if (decide (i = 0) || !isWordChar (cs.getD (i - 1) ' '))
      && (Char.toLower (cs.getD i '*') == 'p')
      && (Char.toLower (cs.getD (i + 1) '*') == 'p') then
    let run := ((cs.drop (i + 2)).takeWhile Char.isDigit).length
    if 6 ≤ run ∧ isWordChar (cs.getD (i + 2 + run) ' ') = false then
      some (String.mk ((cs.drop i).take (2 + run)))
    else none
  else none

/-- `re.search(r"\bPP\d{6,}\b", value, re.IGNORECASE)`: leftmost match. -/
def searchPP (s : String) : Option String :=
  (List.range (s.data.length + 1)).findSome? (ppMatchAt s.data)

/-- Match of `\b\d{6,}\b` anchored at character index `i`. -/
def digitsMatchAt (cs : List Char) (i : Nat) : Option String :=
  if (decide (i = 0) || !isWordChar (cs.getD (i - 1) ' '))
      && (cs.getD i '*').isDigit then
    let run := ((cs.drop i).takeWhile Char.isDigit).length
    if 6 ≤ run ∧ isWordChar (cs.getD (i + run) ' ') = false then
      some (String.mk ((cs.drop i).take run))
    else none
  else none

/-- `re.search(r"\b\d{6,}\b", value)`: leftmost match. -/
def searchDigits (s : String) : Option String :=
  (List.range (s.data.length + 1)).findSome? (digitsMatchAt s.data)

/-- The label-truncation loop of invoice-number mode: walk the label set
in iteration order `order`; at the first label found anywhere in the
lowercased value, truncate there and `break`. -/
def truncateFirst : List String → String → String
  | [], s => s
  | lab :: rest, s =>
    match subIndex (lowerChars s) lab.data with
    | some idx => takeChars s idx
    | none => truncateFirst rest s

/-- The tail of invoice-number mode after truncation: `strip`, prefer a
`PP`+digits token uppercased, else prepend `PP` to a bare digit run, else
return the stripped value unchanged. -/
def invoiceTail (v : String) : String :=
  match searchPP (pystrip v) with
  | some m => upperStr m
  | none =>
    match searchDigits (pystrip v) with
    | some m => "PP" ++ m
    | none => pystrip v

/-- Invoice-number mode of `normalize_bill_data` (`extract_invoice.py`
lines 48-66), with the label-set iteration order explicit. -/
def invoiceNoNormalize (order : List String) (s : String) : String :=
  invoiceTail (truncateFirst order s)

/-- `normalize_bill_data(value, mode)` (`extract_invoice.py` lines 44-75;
`index.py` lines 39-50 is the same function without the invoice-number
branch, which it never selects).  `value` is `Option String` so that the
Python-falsy guard `if not value: return value` covers both `None` and
the empty string; `order` is the iteration order of `ALL_LABELS`. -/
def normalize_bill_data_ord (order : List String) (value : Option String)
    (mode : String) : Option String :=
  match value with
  | none => none
  | some s =>
    if s = "" then some s
    else if mode = "invoice_no" then some (invoiceNoNormalize order s)
    else if mode = "bill" then some (joinSpace ((pysplit s).take 2))
    else if mode = "total" then
      some (if hasRupee s = false ∧ hasDigit s = true then "₹ " ++ s else s)
    else some s

/-- `normalize_bill_data` at the canonical label order (order only
matters in invoice-number mode). -/
def normalize_bill_data (value : Option String) (mode : String) : Option String :=
  normalize_bill_data_ord ALL_LABELS value mode

/-- Minimum of a list of naturals, `none` on the empty list. -/
def minNat? : List Nat → Option Nat
  | [] => none
  | x :: xs => some (xs.foldl Nat.min x)

/-- Modelled from the spec's words (refinement comparison for the
invoice-number claim): truncate the raw value at the *earliest*
case-insensitive occurrence of any configured label string. -/
def truncateEarliest (labels : List String) (s : String) : String :=
  match minNat? (labels.filterMap (fun lab => subIndex (lowerChars s) lab.data)) with
  | some idx => takeChars s idx
  | none => s

/-- Modelled from the spec's words: invoice-number normalization with
earliest-occurrence truncation, followed by the same PP/digit cascade. -/
def spec_normalize_invoice (s : String) : String :=
  invoiceTail (truncateEarliest ALL_LABELS s)

/-! ## Token model, Label Locator and Value Resolver -/

/-- A positioned word token as produced by `page.extract_words()`. -/
structure Word where
  text : String
  x0 : ℚ
  x1 : ℚ
  top : ℚ
  bottom : ℚ
deriving DecidableEq, Repr

/-- A page: bounds plus the external `crop(box).extract_text()`
capability of `pdfplumber`, modelled as an oracle from the crop box
`(x0, top, x1, bottom)` to the extracted text (`none` = no text). -/
structure Page where
  width : ℚ
  height : ℚ
  crop : ℚ → ℚ → ℚ → ℚ → Option String

/-- `find_label(words, label_text)` (`extract_invoice.py` lines 103-111,
`index.py` lines 72-80): scan `i in range(len(words) - len(label_words))`
for the first window whose texts equal the label's words exactly, and
return that window.  Note the Python range bound: the window starting at
`len(words) - len(label_words)` is never examined. -/
def find_label (words : List Word) (label_text : String) : Option (List Word) :=
  ((List.range (words.length - (pysplit label_text).length)).find?
      (fun i => ((words.drop i).take (pysplit label_text).length).map Word.text
          == pysplit label_text)).map
    (fun i => (words.drop i).take (pysplit label_text).length)

/-- `extract_right_of_label` with the default `max_width=200`: crop the
band to the right of the label's last word and clean the text. -/
def extract_right_of_label (page : Page) (lws : List Word) : String :=
  match lws.getLast? with
  | none => ""
  | some last =>
    cleanOpt (page.crop (last.x1 + 5) last.top
      (min (last.x1 + 5 + 200) page.width) last.bottom)

/-- `extract_below_label` with the default `height=40`: crop the box
below the label's first word and clean the text. -/
def extract_below_label (page : Page) (lws : List Word) : String :=
  match lws.head? with
  | none => ""
  | some first =>
    cleanOpt (page.crop first.x0 (first.bottom + 5)
      (min (first.x0 + 200) page.width) (min (first.bottom + 5 + 40) page.height))

/-- Stable insertion keeping existing elements with `x0 ≤ w.x0` in
front: each new element lands after its equals. -/
def insertByX0 (w : Word) : List Word → List Word
  | [] => [w]
  | v :: rest => if v.x0 ≤ w.x0 then v :: insertByX0 w rest else w :: v :: rest

/-- Stable left-to-right sort by `x0`, modelling
`candidates.sort(key=lambda w: w["x0"])`. -/
def sortByX0 (l : List Word) : List Word := l.foldl (fun acc w => insertByX0 w acc) []

/-- `extract_same_column_below_words` with the defaults `y_gap=5`,
`max_height=60` (`extract_invoice.py` lines 141-167): words vertically in
the band below the label whose horizontal centre aligns with the label
column, sorted left to right and joined. -/
def extract_same_column_below_words (words lws : List Word) : String :=
  match lws with
  | [] => ""
  | l :: ls =>
    let colLeft := ls.foldl (fun m w => min m w.x0) l.x0
    let colRight := ls.foldl (fun m w => max m w.x1) l.x1
    let labelBottom := ls.foldl (fun m w => max m w.bottom) l.bottom
    let cands := words.filter (fun w =>
      (decide (labelBottom + 5 < w.top) && decide (w.top < labelBottom + 60))
      && (decide (colLeft - 10 ≤ (w.x0 + w.x1) / 2)
          && decide ((w.x0 + w.x1) / 2 ≤ colRight + 10)))
    cleanStr (joinSpace ((sortByX0 cands).map Word.text))

/-- `extract_value(page, words, label_text)` (`extract_invoice.py` lines
173-196, `index.py` lines 142-165): locate the label, then run the
column-below / right-of-label / below-label cascade with early return. -/
def extract_value (page : Page) (words : List Word) (label_text : String) : String :=
  match find_label words label_text with
  | none => ""
  | some lws =>
    if lws = [] then ""
    else if COLUMN_TABLE_FIELDS.contains label_text = true
            ∧ extract_same_column_below_words words lws ≠ "" then
      extract_same_column_below_words words lws
    else if extract_right_of_label page lws ≠ ""
            ∧ ALL_LABELS.contains (lowerStr (extract_right_of_label page lws)) = false
            ∧ hasDigit (extract_right_of_label page lws) = true then
      extract_right_of_label page lws
    else if extract_below_label page lws ≠ "" then extract_below_label page lws
    else ""

/-! ## Fallback Pattern Extractor: counterparty tax ID (`v2.py` 203-224) -/

/-- Character class at position `j` (0-based) of the 15-character GSTIN
grammar `[0-9]{2}[A-Z]{5}[0-9]{4}[A-Z][A-Z0-9]Z[A-Z0-9]`, case
sensitive. -/
def gstinClass (j : Nat) (c : Char) : Bool :=
  if j < 2 then c.isDigit
  else if j < 7 then isUpperAZ c
  else if j < 11 then c.isDigit
  else if j = 11 then isUpperAZ c
  else if j = 12 then isUpperAZ c || c.isDigit
  else if j = 13 then c == 'Z'
  else isUpperAZ c || c.isDigit

/-- The same grammar under `re.IGNORECASE` (used by the buyer-section
pattern). -/
def gstinClassCI (j : Nat) (c : Char) : Bool :=
  if j < 2 then c.isDigit
  else if j < 7 then isLetterCI c
  else if j < 11 then c.isDigit
  else if j = 11 then isLetterCI c
  else if j = 12 then isLetterCI c || c.isDigit
  else if j = 13 then c == 'Z' || c == 'z'
  else isLetterCI c || c.isDigit

/-- Case-insensitive GSTIN-grammar match starting at index `i` (no word
boundaries, as in the buyer-section pattern's capture group). -/
def gstinCIAt (cs : List Char) (i : Nat) : Bool :=
  (List.range 15).all (fun j => gstinClassCI j (cs.getD (i + j) '*'))

/-- Case-sensitive GSTIN-grammar match at `i`, with `\b` boundaries on
both sides (the fallback pattern `\b(...)\b`).  The `'*'` default makes
out-of-range positions fail every class, and out-of-range neighbours
count as non-word, matching boundary behaviour at the text's edges. -/
def gstinTokenAt (cs : List Char) (i : Nat) : Bool :=
  (decide (i = 0) || !isWordChar (cs.getD (i - 1) ' '))
  && (List.range 15).all (fun j => gstinClass j (cs.getD (i + j) '*'))
  && !isWordChar (cs.getD (i + 15) ' ')

/-- Worker for `re.findall`: scan left to right; a match consumes its 15
characters (non-overlapping), a failed position advances by one. -/
def gstinFindAllAux (cs : List Char) : Nat → Nat → List String
  | 0, _ => []
  | Nat.succ fuel, pos =>
    if cs.length ≤ pos then []
    else if gstinTokenAt cs pos then
      String.mk ((cs.drop pos).take 15) :: gstinFindAllAux cs fuel (pos + 15)
    else gstinFindAllAux cs fuel (pos + 1)

/-- `re.findall(r'\b([0-9]{2}[A-Z]{5}[0-9]{4}[A-Z]{1}[A-Z0-9]{1}[Z]{1}[A-Z0-9]{1})\b', text)`
(case sensitive: no flag is passed on `v2.py` line 217). -/
def gstinFindAll (cs : List Char) : List String :=
  gstinFindAllAux cs (cs.length + 1) 0

/-- Case-insensitive literal match of `lit` (given lowercase) at `i`. -/
def litCI (cs : List Char) (i : Nat) (lit : List Char) : Bool :=
  ((cs.drop i).take lit.length).map Char.toLower == lit

/-- Length of the whitespace run starting at `i`. -/
def wsRunLen (cs : List Char) (i : Nat) : Nat :=
  ((cs.drop i).takeWhile Char.isWhitespace).length

/-- End position of a two-word keyword `w1\s*w2` match starting at `i`
(case insensitive).  Only the full whitespace run can separate the words,
since `w2` starts with a non-whitespace character. -/
def twoWordKwEnd (cs : List Char) (i : Nat) (w1 w2 : List Char) : Option Nat :=
  if litCI cs i w1 then
    let j := i + w1.length + wsRunLen cs (i + w1.length)
    if litCI cs j w2 then some (j + w2.length) else none
  else none

/-- End position of a one-word keyword match starting at `i`. -/
def oneWordKwEnd (cs : List Char) (i : Nat) (w : List Char) : Option Nat :=
  if litCI cs i w then some (i + w.length) else none

/-- Ends of counterparty-keyword matches starting at `i`, in the
pattern's alternation order `Bill\s*To | Buyer | Consignee | Ship\s*To`. -/
def kwEndList (cs : List Char) (i : Nat) : List Nat :=
  (twoWordKwEnd cs i "bill".data "to".data).toList
    ++ (oneWordKwEnd cs i "buyer".data).toList
    ++ (oneWordKwEnd cs i "consignee".data).toList
    ++ (twoWordKwEnd cs i "ship".data "to".data).toList

/-- Smallest gap `g ≤ 500` such that a case-insensitive GSTIN-grammar
match starts at `e + g` (the lazy `[\s\S]{0,500}?`). -/
def firstGap (cs : List Char) (e : Nat) : Option Nat :=
  (List.range 501).find? (fun g => gstinCIAt cs (e + g))

/-- Try the buyer-section pattern at start position `i`: first keyword
alternative (in order) whose match can be completed by a gap and a GSTIN;
returns the captured 15 characters. -/
def tryKwAt (cs : List Char) (i : Nat) : Option (List Char) :=
  (kwEndList cs i).findSome?
    (fun e => (firstGap cs e).map (fun g => (cs.drop (e + g)).take 15))

/-- `re.search` of the buyer-section pattern
`(?:Bill\s*To|Buyer|Consignee|Ship\s*To)[\s\S]{0,500}?(GSTIN)` with
`re.IGNORECASE`: leftmost start position wins. -/
def buyerSectionSearch (cs : List Char) : Option (List Char) :=
  (List.range (cs.length + 1)).findSome? (tryKwAt cs)

/-- `extract_buyer_gstin_with_regex(text)` (`v2.py` lines 203-224):
buyer-section anchored search first; otherwise collect all bare GSTIN
matches and return the second if two or more exist, the sole one if
exactly one exists, else `None`. -/
def extract_buyer_gstin_with_regex (text : String) : Option String :=
  match buyerSectionSearch text.data with
  | some g => some (upperStr (String.mk g))
  | none =>
    match gstinFindAll text.data with
    | [] => none
    | [g] => some (upperStr g)
    | _ :: g2 :: _ => some (upperStr g2)

/-! ## Record lemmas -/

theorem dGet_dSet_same (d : Record) (k : String) (v : PyVal) :
    dGet (dSet d k v) k = v := by
  induction d with
  | nil => simp [dSet, dGet]
  | cons p rest ih =>
    by_cases h : p.1 = k
    · simp [dSet, dGet, h]
    · simp [dSet, dGet, h, ih]

theorem dGet_dSet_ne (d : Record) (k k' : String) (v : PyVal) (h : k' ≠ k) :
    dGet (dSet d k v) k' = dGet d k' := by
  induction d with
  | nil => simp [dSet, dGet, Ne.symm h]
  | cons p rest ih =>
    by_cases hp : p.1 = k
    · simp [dSet, dGet, hp, Ne.symm h]
    · simp [dSet, dGet, hp, ih]

theorem dGet_stripKey_same (d : Record) (k : String) :
    dGet (stripKey d k) k = normTax (dGet d k) := by
  cases h : dGet d k with
  | vNull => simp [stripKey, normTax, h]
  | vNum q => simp [stripKey, normTax, h]
  | vStr s =>
    by_cases hn : lowerStr s ∈ nullWords
    · simp [stripKey, normTax, h, hn, dGet_dSet_same]
    · simp [stripKey, normTax, h, hn, dGet_dSet_same]

theorem dGet_stripKey_ne (d : Record) (k k' : String) (h : k' ≠ k) :
    dGet (stripKey d k) k' = dGet d k' := by
  cases hg : dGet d k with
  | vNull => simp [stripKey, hg]
  | vNum q => simp [stripKey, hg]
  | vStr s =>
    by_cases hn : lowerStr s ∈ nullWords
    · simp [stripKey, hg, hn, dGet_dSet_ne _ _ _ _ h]
    · simp [stripKey, hg, hn, dGet_dSet_ne _ _ _ _ h]

theorem dGet_stripPhase_cgst (d : Record) :
    dGet (stripPhase d) "CGST" = normTax (dGet d "CGST") := by
  unfold stripPhase
  rw [dGet_stripKey_ne _ _ _ (by decide), dGet_stripKey_ne _ _ _ (by decide),
    dGet_stripKey_same]

theorem dGet_stripPhase_sgst (d : Record) :
    dGet (stripPhase d) "SGST" = normTax (dGet d "SGST") := by
  unfold stripPhase
  rw [dGet_stripKey_ne _ _ _ (by decide), dGet_stripKey_same,
    dGet_stripKey_ne _ _ _ (by decide)]

theorem dGet_stripPhase_igst (d : Record) :
    dGet (stripPhase d) "IGST" = normTax (dGet d "IGST") := by
  unfold stripPhase
  rw [dGet_stripKey_same, dGet_stripKey_ne _ _ _ (by decide),
    dGet_stripKey_ne _ _ _ (by decide)]

theorem dGet_stripPhase_other (d : Record) (k : String)
    (h1 : k ≠ "CGST") (h2 : k ≠ "SGST") (h3 : k ≠ "IGST") :
    dGet (stripPhase d) k = dGet d k := by
  unfold stripPhase
  rw [dGet_stripKey_ne _ _ _ h3, dGet_stripKey_ne _ _ _ h2, dGet_stripKey_ne _ _ _ h1]

/-! ## Claim C1: Tax Reconciler mutual-exclusivity decision -/

/-- C1: whenever both a CGST/SGST amount and an IGST amount are present
(parse to a number strictly greater than 0 after currency stripping), the
reconciler nulls IGST when `CGST + SGST > IGST` and otherwise nulls both
CGST and SGST, retaining the other side's (stripped) values. -/
theorem taxReconcilerDecision (d : Record) (qc qs qi : ℚ)
    (hc : pyFloatOr0 (dGet (stripPhase d) "CGST") = some qc)
    (hs : pyFloatOr0 (dGet (stripPhase d) "SGST") = some qs)
    (hi : pyFloatOr0 (dGet (stripPhase d) "IGST") = some qi)
    (hpres : (is_valid_amount (dGet (stripPhase d) "CGST")
        || is_valid_amount (dGet (stripPhase d) "SGST")) = true)
    (hig : is_valid_amount (dGet (stripPhase d) "IGST") = true) :
    ∃ e, validate_and_fix_taxes d = some e ∧
      (qc + qs > qi →
        dGet e "IGST" = PyVal.vNull ∧
        dGet e "CGST" = dGet (stripPhase d) "CGST" ∧
        dGet e "SGST" = dGet (stripPhase d) "SGST") ∧
      (¬ qc + qs > qi →
        dGet e "CGST" = PyVal.vNull ∧
        dGet e "SGST" = PyVal.vNull ∧
        dGet e "IGST" = dGet (stripPhase d) "IGST") := by
  have key : validate_and_fix_taxes d =
      (if qi < qc + qs then some (dSet (stripPhase d) "IGST" PyVal.vNull)
       else some (dSet (dSet (stripPhase d) "CGST" PyVal.vNull) "SGST" PyVal.vNull)) := by
    unfold validate_and_fix_taxes
    rw [hpres, hig, hc, hs, hi]
    rfl
  by_cases hlt : qi < qc + qs
  · rw [key, if_pos hlt]
    refine ⟨_, rfl, fun _ => ?_, fun hng => absurd hlt hng⟩
    exact ⟨dGet_dSet_same _ _ _, dGet_dSet_ne _ _ _ _ (by decide),
      dGet_dSet_ne _ _ _ _ (by decide)⟩
  · rw [key, if_neg hlt]
    refine ⟨_, rfl, fun hg => absurd hg hlt, fun _ => ?_⟩
    refine ⟨?_, dGet_dSet_same _ _ _, ?_⟩
    · rw [dGet_dSet_ne _ _ _ _ (by decide), dGet_dSet_same]
    · rw [dGet_dSet_ne _ _ _ _ (by decide), dGet_dSet_ne _ _ _ _ (by decide)]

/-- Witness for C1 at the spec's example CGST=100, SGST=100, IGST=150. -/
theorem taxReconcilerDecision_witness :
    ∃ e, validate_and_fix_taxes
        [("CGST", PyVal.vStr "100"), ("SGST", PyVal.vStr "100"), ("IGST", PyVal.vStr "150")]
        = some e ∧
      ((100 : ℚ) + 100 > 150 →
        dGet e "IGST" = PyVal.vNull ∧
        dGet e "CGST" = dGet (stripPhase
          [("CGST", PyVal.vStr "100"), ("SGST", PyVal.vStr "100"), ("IGST", PyVal.vStr "150")]) "CGST" ∧
        dGet e "SGST" = dGet (stripPhase
          [("CGST", PyVal.vStr "100"), ("SGST", PyVal.vStr "100"), ("IGST", PyVal.vStr "150")]) "SGST") ∧
      (¬ (100 : ℚ) + 100 > 150 →
        dGet e "CGST" = PyVal.vNull ∧
        dGet e "SGST" = PyVal.vNull ∧
        dGet e "IGST" = dGet (stripPhase
          [("CGST", PyVal.vStr "100"), ("SGST", PyVal.vStr "100"), ("IGST", PyVal.vStr "150")]) "IGST") :=
  taxReconcilerDecision _ 100 100 150 (by with_unfolding_all decide) (by with_unfolding_all decide)
    (by with_unfolding_all decide) (by with_unfolding_all decide) (by with_unfolding_all decide)

/-! ## Claim C2: post-reconciliation exclusivity -/

/-- C2 counterexample: with CGST = "0" (non-null, parses to 0) and
IGST = "100", the reconciler leaves *both* schemes with non-null values,
refuting "at most one of the two schemes has a non-null value". -/
theorem taxExclusivity_cex :
    ∃ e, validate_and_fix_taxes [("CGST", PyVal.vStr "0"), ("IGST", PyVal.vStr "100")]
        = some e ∧
      dGet e "CGST" ≠ PyVal.vNull ∧ dGet e "IGST" ≠ PyVal.vNull :=
  ⟨[("CGST", PyVal.vStr "0"), ("IGST", PyVal.vStr "100")], by with_unfolding_all decide,
    by decide, by decide⟩

/-- C2 amended: after a reconciliation that completes without error, at
most one of the schemes {CGST, SGST} / {IGST} carries a *valid* amount
(non-null and parsing to a number strictly greater than 0). -/
theorem taxExclusivityValid (d e : Record)
    (h : validate_and_fix_taxes d = some e) :
    ¬ ((is_valid_amount (dGet e "CGST") = true ∨ is_valid_amount (dGet e "SGST") = true)
       ∧ is_valid_amount (dGet e "IGST") = true) := by
  unfold validate_and_fix_taxes at h
  by_cases hcond : ((is_valid_amount (dGet (stripPhase d) "CGST")
      || is_valid_amount (dGet (stripPhase d) "SGST"))
     && is_valid_amount (dGet (stripPhase d) "IGST")) = true
  · rw [if_pos hcond] at h
    rcases hfc : pyFloatOr0 (dGet (stripPhase d) "CGST") with _ | qc <;>
      rcases hfs : pyFloatOr0 (dGet (stripPhase d) "SGST") with _ | qs <;>
        rcases hfi : pyFloatOr0 (dGet (stripPhase d) "IGST") with _ | qi <;>
          rw [hfc, hfs, hfi] at h <;> try exact Option.noConfusion h
    have hmr : (if qi < qc + qs then some (dSet (stripPhase d) "IGST" PyVal.vNull)
        else some (dSet (dSet (stripPhase d) "CGST" PyVal.vNull) "SGST" PyVal.vNull)) = some e := h
    by_cases hlt : qi < qc + qs
    · rw [if_pos hlt] at hmr
      obtain rfl : dSet (stripPhase d) "IGST" PyVal.vNull = e := Option.some.inj hmr
      rintro ⟨-, hig⟩
      rw [dGet_dSet_same] at hig
      exact absurd hig (by decide)
    · rw [if_neg hlt] at hmr
      obtain rfl : dSet (dSet (stripPhase d) "CGST" PyVal.vNull) "SGST" PyVal.vNull = e :=
        Option.some.inj hmr
      rintro ⟨hcs | hss, -⟩
      · rw [dGet_dSet_ne _ _ _ _ (by decide), dGet_dSet_same] at hcs
        exact absurd hcs (by decide)
      · rw [dGet_dSet_same] at hss
        exact absurd hss (by decide)
  · rw [if_neg hcond] at h
    obtain rfl : stripPhase d = e := Option.some.inj h
    rintro ⟨hcs, hig⟩
    apply hcond
    rw [Bool.and_eq_true, Bool.or_eq_true]
    exact ⟨by rcases hcs with hc | hs; exacts [Or.inl hc, Or.inr hs], hig⟩

/-- Witness for the amended C2 at CGST = "100", IGST = "150". -/
theorem taxExclusivityValid_witness :
    ¬ ((is_valid_amount
          (dGet [("CGST", PyVal.vNull), ("IGST", PyVal.vStr "150"), ("SGST", PyVal.vNull)] "CGST") = true
        ∨ is_valid_amount
          (dGet [("CGST", PyVal.vNull), ("IGST", PyVal.vStr "150"), ("SGST", PyVal.vNull)] "SGST") = true)
       ∧ is_valid_amount
          (dGet [("CGST", PyVal.vNull), ("IGST", PyVal.vStr "150"), ("SGST", PyVal.vNull)] "IGST") = true) :=
  taxExclusivityValid [("CGST", PyVal.vStr "100"), ("IGST", PyVal.vStr "150")] _
    (by with_unfolding_all decide)

/-! ## Claim C5: Tax Reconciler frame property -/

/-- C5 counterexample: CGST = "₹ 100" is not nulled by any rule, yet its
original string is *not* preserved — the record ends up holding the
currency-stripped "100". -/
theorem taxFrame_cex :
    ∃ e, validate_and_fix_taxes [("CGST", PyVal.vStr "₹ 100")] = some e ∧
      dGet e "CGST" ≠ PyVal.vNull ∧
      dGet e "CGST" ≠ dGet [("CGST", PyVal.vStr "₹ 100")] "CGST" :=
  ⟨[("CGST", PyVal.vStr "100")], by with_unfolding_all decide, by decide, by decide⟩

/-- C5 amended: fields outside {CGST, SGST, IGST} are never altered, and
each of CGST/SGST/IGST ends up either nulled or holding the
null-normalised, currency-stripped form of its original value (the
stripped string replaces the original in the record). -/
theorem taxReconcilerFrame (d e : Record)
    (h : validate_and_fix_taxes d = some e) :
    (∀ k, k ≠ "CGST" → k ≠ "SGST" → k ≠ "IGST" → dGet e k = dGet d k) ∧
    (∀ k, k = "CGST" ∨ k = "SGST" ∨ k = "IGST" →
        dGet e k = PyVal.vNull ∨ dGet e k = normTax (dGet d k)) := by
  unfold validate_and_fix_taxes at h
  by_cases hcond : ((is_valid_amount (dGet (stripPhase d) "CGST")
      || is_valid_amount (dGet (stripPhase d) "SGST"))
     && is_valid_amount (dGet (stripPhase d) "IGST")) = true
  · rw [if_pos hcond] at h
    rcases hfc : pyFloatOr0 (dGet (stripPhase d) "CGST") with _ | qc <;>
      rcases hfs : pyFloatOr0 (dGet (stripPhase d) "SGST") with _ | qs <;>
        rcases hfi : pyFloatOr0 (dGet (stripPhase d) "IGST") with _ | qi <;>
          rw [hfc, hfs, hfi] at h <;> try exact Option.noConfusion h
    have hmr : (if qi < qc + qs then some (dSet (stripPhase d) "IGST" PyVal.vNull)
        else some (dSet (dSet (stripPhase d) "CGST" PyVal.vNull) "SGST" PyVal.vNull)) = some e := h
    by_cases hlt : qi < qc + qs
    · rw [if_pos hlt] at hmr
      obtain rfl : dSet (stripPhase d) "IGST" PyVal.vNull = e := Option.some.inj hmr
      constructor
      · intro k h1 h2 h3
        rw [dGet_dSet_ne _ _ _ _ h3]
        exact dGet_stripPhase_other d k h1 h2 h3
      · rintro k (rfl | rfl | rfl)
        · right; rw [dGet_dSet_ne _ _ _ _ (by decide)]; exact dGet_stripPhase_cgst d
        · right; rw [dGet_dSet_ne _ _ _ _ (by decide)]; exact dGet_stripPhase_sgst d
        · left; exact dGet_dSet_same _ _ _
    · rw [if_neg hlt] at hmr
      obtain rfl : dSet (dSet (stripPhase d) "CGST" PyVal.vNull) "SGST" PyVal.vNull = e :=
        Option.some.inj hmr
      constructor
      · intro k h1 h2 h3
        rw [dGet_dSet_ne _ _ _ _ h2, dGet_dSet_ne _ _ _ _ h1]
        exact dGet_stripPhase_other d k h1 h2 h3
      · rintro k (rfl | rfl | rfl)
        · left; rw [dGet_dSet_ne _ _ _ _ (by decide)]; exact dGet_dSet_same _ _ _
        · left; exact dGet_dSet_same _ _ _
        · right; rw [dGet_dSet_ne _ _ _ _ (by decide), dGet_dSet_ne _ _ _ _ (by decide)]
          exact dGet_stripPhase_igst d
  · rw [if_neg hcond] at h
    obtain rfl : stripPhase d = e := Option.some.inj h
    constructor
    · intro k h1 h2 h3
      exact dGet_stripPhase_other d k h1 h2 h3
    · rintro k (rfl | rfl | rfl)
      · right; exact dGet_stripPhase_cgst d
      · right; exact dGet_stripPhase_sgst d
      · right; exact dGet_stripPhase_igst d

/-- Witness for the amended C5: `Total_Value` is untouched while CGST is
stripped. -/
theorem taxReconcilerFrame_witness :
    dGet [("Total_Value", PyVal.vStr "x"), ("CGST", PyVal.vStr "5")] "Total_Value"
      = dGet [("Total_Value", PyVal.vStr "x"), ("CGST", PyVal.vStr "₹ 5")] "Total_Value" :=
  (taxReconcilerFrame [("Total_Value", PyVal.vStr "x"), ("CGST", PyVal.vStr "₹ 5")]
      [("Total_Value", PyVal.vStr "x"), ("CGST", PyVal.vStr "5")] (by with_unfolding_all decide)).1
    "Total_Value" (by decide) (by decide) (by decide)

/-! ## Claim C3: Label Locator completeness -/

/-- C3 (code-bug evidence): for the token sequence `["Total"]` and label
`"Total"` a matching contiguous run exists at index 0 — it ends at the
final token — yet `find_label` signals NOT_FOUND, because the Python scan
`for i in range(len(words) - len(label_words))` never examines the window
starting at `len(words) - len(label_words)`. -/
theorem find_label_misses_final_window :
    find_label [⟨"Total", 0, 30, 0, 10⟩] "Total" = none ∧
    ([(⟨"Total", 0, 30, 0, 10⟩ : Word)].map Word.text) = pysplit "Total" :=
  ⟨by decide, by decide⟩

/-! ## Claim C8: money-total normalization idempotence -/

/-- Evaluation of `normalize_bill_data` in money-total mode. -/
theorem nbd_total_eq (s : String) :
    normalize_bill_data (some s) "total"
      = some (if s = "" then s
              else if hasRupee s = false ∧ hasDigit s = true then "₹ " ++ s else s) := by
  by_cases hs : s = ""
  · simp [normalize_bill_data, normalize_bill_data_ord, hs]
  · simp [normalize_bill_data, normalize_bill_data_ord, hs]

/-- C8: applying money-total mode twice equals applying it once; the mode
prepends the canonical marker exactly when the value is non-empty,
contains a digit and carries no marker; and the already-marked
`"₹ 450.00"` is returned unchanged. -/
theorem moneyTotalIdempotent :
    (∀ v, normalize_bill_data (normalize_bill_data v "total") "total"
        = normalize_bill_data v "total") ∧
    (∀ s, normalize_bill_data (some s) "total" = some ("₹ " ++ s)
        ↔ (s ≠ "" ∧ hasDigit s = true ∧ hasRupee s = false)) ∧
    normalize_bill_data (some "₹ 450.00") "total" = some "₹ 450.00" := by
  have hdata : ∀ s : String, ("₹ " ++ s).data = '₹' :: ' ' :: s.data := fun s => rfl
  have hne : ∀ s : String, ("₹ " ++ s) ≠ "" := by
    intro s h
    simpa [hdata s] using congrArg String.data h
  have hrup : ∀ s : String, hasRupee ("₹ " ++ s) = true := by
    intro s; simp [hasRupee, hdata s]
  have hfix : ∀ s : String, s ≠ "₹ " ++ s := by
    intro s h
    have := congrArg (fun t : String => t.data.length) h
    simp [hdata s] at this
    omega
  refine ⟨?_, ?_, ?_⟩
  · intro v
    cases v with
    | none => rfl
    | some s =>
      rw [nbd_total_eq s]
      by_cases hs : s = ""
      · simp [hs, nbd_total_eq]
      · by_cases hcond : hasRupee s = false ∧ hasDigit s = true
        · simp only [if_neg hs, if_pos hcond]
          rw [nbd_total_eq ("₹ " ++ s)]
          simp [hne s, hrup s]
        · simp only [if_neg hs, if_neg hcond]
          rw [nbd_total_eq s]
          simp [hs, hcond]
  · intro s
    rw [nbd_total_eq s]
    constructor
    · intro h
      have hsome := Option.some.inj h
      by_cases hs : s = ""
      · rw [if_pos hs] at hsome
        subst hs
        exact absurd (congrArg String.data hsome) (by simp [hdata])
      · rw [if_neg hs] at hsome
        by_cases hcond : hasRupee s = false ∧ hasDigit s = true
        · exact ⟨hs, hcond.2, hcond.1⟩
        · rw [if_neg hcond] at hsome
          exact absurd hsome (hfix s)
    · rintro ⟨hs, hd, hr⟩
      simp [hs, hd, hr]
  · decide

/-! ## Claim C10: normalization of an absent value is the identity -/

/-- C10: for every label order and every mode, `normalize_bill_data`
maps `None` to `None` and the empty string to itself (so money-total mode
never fabricates a bare currency marker), and an unrecognized mode passes
every value through unchanged. -/
theorem normalizeAbsentIdentity :
    ∀ (order : List String) (mode : String),
      normalize_bill_data_ord order none mode = none ∧
      normalize_bill_data_ord order (some "") mode = some "" ∧
      ∀ v, mode ≠ "invoice_no" → mode ≠ "bill" → mode ≠ "total" →
        normalize_bill_data_ord order v mode = v := by
  intro order mode
  refine ⟨rfl, by simp [normalize_bill_data_ord], ?_⟩
  intro v h1 h2 h3
  cases v with
  | none => rfl
  | some s =>
    by_cases hs : s = "" <;> simp [normalize_bill_data_ord, hs, h1, h2, h3]

/-- Witness for C10 at the unrecognized mode "plain". -/
theorem normalizeAbsentIdentity_witness :
    normalize_bill_data_ord ALL_LABELS none "plain" = none ∧
    normalize_bill_data_ord ALL_LABELS (some "") "plain" = some "" ∧
    normalize_bill_data_ord ALL_LABELS (some "₹ 7") "plain" = some "₹ 7" := by
  obtain ⟨h1, h2, h3⟩ := normalizeAbsentIdentity ALL_LABELS "plain"
  exact ⟨h1, h2, h3 _ (by decide) (by decide) (by decide)⟩



/-! ## Claims C6 and C7: Value Resolver cascade -/

/-- A located label run carries exactly the label's words as texts. -/
theorem find_label_texts (words : List Word) (lt : String) (lws : List Word)
    (h : find_label words lt = some lws) : lws.map Word.text = pysplit lt := by
  unfold find_label at h
  rcases ho : (List.range (words.length - (pysplit lt).length)).find?
      (fun i => ((words.drop i).take (pysplit lt).length).map Word.text == pysplit lt)
    with _ | i <;> rw [ho] at h
  · exact Option.noConfusion h
  · simp only [Option.map_some'] at h
    obtain rfl := Option.some.inj h
    have hp := List.find?_some ho
    exact eq_of_beq hp

/-- C6: for a column-table field whose label is located, a non-empty
column-below value is returned as-is — for *every* crop oracle, so the
right-of-label and below-label strategies can never influence the
result. -/
theorem columnPrecedence (page : Page) (words : List Word) (label_text : String)
    (lws : List Word)
    (hcol : label_text ∈ COLUMN_TABLE_FIELDS)
    (hfind : find_label words label_text = some lws)
    (hne : extract_same_column_below_words words lws ≠ "") :
    extract_value page words label_text = extract_same_column_below_words words lws := by
  have htexts := find_label_texts words label_text lws hfind
  simp only [COLUMN_TABLE_FIELDS, List.mem_cons, List.not_mem_nil, or_false] at hcol
  rcases hcol with rfl | rfl | rfl <;>
  · have hlws : lws ≠ [] := by
      intro hnil
      rw [hnil] at htexts
      exact absurd htexts (by decide)
    simp only [extract_value, hfind]
    rw [if_neg hlws, if_pos (And.intro (by decide) hne)]

/-- Witness for C6: a column value "450.00" beats a right-of-label crop
that would itself be accepted ("999"). -/
theorem columnPrecedence_witness :
    extract_value ⟨600, 800, fun _ _ _ _ => some "999"⟩
        [⟨"Total", 100, 130, 0, 10⟩, ⟨"450.00", 100, 130, 20, 28⟩] "Total"
      = extract_same_column_below_words
        [⟨"Total", 100, 130, 0, 10⟩, ⟨"450.00", 100, 130, 20, 28⟩]
        [⟨"Total", 100, 130, 0, 10⟩] :=
  columnPrecedence _ _ "Total" _ (by decide) (by decide) (by with_unfolding_all decide)

/-- C7: when the cascade reaches the right-of-label strategy, a non-empty
capture with no digit (or one equal to a configured label) is rejected,
and resolution returns the below-label capture if non-empty, else the
empty string — for every field kind. -/
theorem rightDigitGuard (page : Page) (words : List Word) (label_text : String)
    (lws : List Word)
    (hfind : find_label words label_text = some lws)
    (hlws : lws ≠ [])
    (hcol : COLUMN_TABLE_FIELDS.contains label_text = false
        ∨ extract_same_column_below_words words lws = "")
    (_hnon : extract_right_of_label page lws ≠ "")
    (hguard : hasDigit (extract_right_of_label page lws) = false
        ∨ ALL_LABELS.contains (lowerStr (extract_right_of_label page lws)) = true) :
    extract_value page words label_text
      = (if extract_below_label page lws ≠ "" then extract_below_label page lws else "") := by
  simp only [extract_value, hfind]
  rw [if_neg hlws]
  have hc2 : ¬ (COLUMN_TABLE_FIELDS.contains label_text = true
      ∧ extract_same_column_below_words words lws ≠ "") := by
    rcases hcol with h | h
    · rintro ⟨h1, -⟩
      rw [h] at h1
      exact Bool.noConfusion h1
    · rintro ⟨-, h2⟩
      exact h2 h
  rw [if_neg hc2]
  have hr : ¬ (extract_right_of_label page lws ≠ ""
      ∧ ALL_LABELS.contains (lowerStr (extract_right_of_label page lws)) = false
      ∧ hasDigit (extract_right_of_label page lws) = true) := by
    rintro ⟨-, hnl, hdg⟩
    rcases hguard with h | h
    · rw [h] at hdg
      exact Bool.noConfusion hdg
    · rw [h] at hnl
      exact Bool.noConfusion hnl
  rw [if_neg hr]

/-- Witness for C7: the digitless right capture "abc" is rejected and the
below capture "v 9" is returned. -/
theorem rightDigitGuard_witness :
    extract_value ⟨600, 800, fun _ top _ _ => if top = 0 then some "abc" else some "v 9"⟩
        [⟨"Total", 100, 130, 0, 10⟩, ⟨"xyz", 0, 10, 100, 110⟩] "Total"
      = (if extract_below_label
              ⟨600, 800, fun _ top _ _ => if top = 0 then some "abc" else some "v 9"⟩
              [⟨"Total", 100, 130, 0, 10⟩] ≠ ""
         then extract_below_label
              ⟨600, 800, fun _ top _ _ => if top = 0 then some "abc" else some "v 9"⟩
              [⟨"Total", 100, 130, 0, 10⟩]
         else "") :=
  rightDigitGuard _ _ "Total" _ (by decide) (by decide)
    (Or.inr (by with_unfolding_all decide))
    (by with_unfolding_all decide)
    (Or.inl (by with_unfolding_all decide))

/-! ## Claim C9: counterparty tax-ID second-occurrence heuristic -/

/-- C9: when the buyer-section pattern finds no GSTIN within 500
characters after a counterparty keyword, the recognizer returns the
second bare GSTIN match uppercased if two or more exist, the sole match
uppercased if exactly one exists, and a not-found signal otherwise. -/
theorem buyerGstinFallback (text : String)
    (hmiss : buyerSectionSearch text.data = none) :
    (gstinFindAll text.data = [] → extract_buyer_gstin_with_regex text = none) ∧
    (∀ g, gstinFindAll text.data = [g] →
        extract_buyer_gstin_with_regex text = some (upperStr g)) ∧
    (∀ g1 g2 rest, gstinFindAll text.data = g1 :: g2 :: rest →
        extract_buyer_gstin_with_regex text = some (upperStr g2)) := by
  refine ⟨?_, ?_, ?_⟩
  · intro h
    simp [extract_buyer_gstin_with_regex, hmiss, h]
  · intro g h
    simp [extract_buyer_gstin_with_regex, hmiss, h]
  · intro g1 g2 rest h
    simp [extract_buyer_gstin_with_regex, hmiss, h]

/-- Witness for C9 on a text with two bare GSTIN matches and no
counterparty keyword. -/
theorem buyerGstinFallback_witness :
    extract_buyer_gstin_with_regex "07AAACI1681G1ZM 29AAACI1681G1Z5"
      = some (upperStr "29AAACI1681G1Z5") :=
  (buyerGstinFallback "07AAACI1681G1ZM 29AAACI1681G1Z5" (by decide)).2.2
    "07AAACI1681G1ZM" "29AAACI1681G1Z5" [] (by decide)

/-! ## Claim C4: invoice-number normalization -/

/-- C4 counterexample: Python iterates `ALL_LABELS` as a *set* whose
order is unspecified, and truncates at the first label of that order
found anywhere — not at the earliest occurrence over all labels.  Under
the admissible iteration order putting "total" first (a permutation of
the configured set), the value "cgst 1234567 total" is truncated at
"total" (index 13) rather than at the earliest label "cgst" (index 0),
producing "PP1234567" where the claimed earliest-occurrence description
yields "". -/
theorem invoiceNoEarliest_cex :
    normalize_bill_data_ord
        ["total", "invoice no", "bill from", "bill to", "invoice date", "cgst", "sgst"]
        (some "cgst 1234567 total") "invoice_no" = some "PP1234567" ∧
    spec_normalize_invoice "cgst 1234567 total" = "" ∧
    List.Perm ["total", "invoice no", "bill from", "bill to", "invoice date", "cgst", "sgst"]
      ALL_LABELS ∧
    ("PP1234567" : String) ≠ "" :=
  ⟨by decide, by decide, by decide, by decide⟩

theorem truncateFirst_of_none (order : List String) (s : String)
    (h : ∀ l ∈ order, subIndex (lowerChars s) l.data = none) :
    truncateFirst order s = s := by
  induction order with
  | nil => rfl
  | cons lab rest ih =>
    have hl := h lab (List.mem_cons_self _ _)
    simp only [truncateFirst, hl]
    exact ih (fun l hl2 => h l (List.mem_cons_of_mem _ hl2))

theorem truncateFirst_of_unique (order : List String) (s : String) (l0 : String) (i0 : Nat)
    (hmem : l0 ∈ order)
    (hidx : subIndex (lowerChars s) l0.data = some i0)
    (huniq : ∀ l ∈ order, (subIndex (lowerChars s) l.data).isSome = true → l = l0) :
    truncateFirst order s = takeChars s i0 := by
  induction order with
  | nil => exact absurd hmem (List.not_mem_nil _)
  | cons lab rest ih =>
    rcases hs : subIndex (lowerChars s) lab.data with _ | j
    · have hlab : lab ≠ l0 := by
        intro h
        rw [h, hidx] at hs
        exact Option.noConfusion hs
      simp only [truncateFirst, hs]
      have hmem2 : l0 ∈ rest := by
        rcases List.mem_cons.mp hmem with h | h
        · exact absurd h.symm hlab
        · exact h
      exact ih hmem2 (fun l hl hsome => huniq l (List.mem_cons_of_mem _ hl) hsome)
    · have hlab : lab = l0 := huniq lab (List.mem_cons_self _ _) (by rw [hs]; rfl)
      subst hlab
      rw [hidx] at hs
      obtain rfl := Option.some.inj hs
      simp only [truncateFirst, hidx]

theorem foldl_min_const (x : Nat) (xs : List Nat) (hall : ∀ j ∈ xs, j = x) :
    xs.foldl Nat.min x = x := by
  induction xs with
  | nil => rfl
  | cons y ys ih =>
    have hy : y = x := hall y (List.mem_cons_self _ _)
    subst hy
    simp only [List.foldl_cons, Nat.min_self]
    exact ih (fun j hj => hall j (List.mem_cons_of_mem _ hj))

theorem minNat?_const (l : List Nat) (a : Nat) (hmem : a ∈ l)
    (hall : ∀ j ∈ l, j = a) : minNat? l = some a := by
  cases l with
  | nil => exact absurd hmem (List.not_mem_nil _)
  | cons x xs =>
    have hx : x = a := hall x (List.mem_cons_self _ _)
    subst hx
    simp only [minNat?, Option.some.injEq]
    exact foldl_min_const x xs (fun j hj => hall j (List.mem_cons_of_mem _ hj))

theorem truncateEarliest_of_none (labels : List String) (s : String)
    (h : ∀ l ∈ labels, subIndex (lowerChars s) l.data = none) :
    truncateEarliest labels s = s := by
  unfold truncateEarliest
  have hnil : labels.filterMap (fun lab => subIndex (lowerChars s) lab.data) = [] := by
    rw [List.filterMap_eq_nil_iff]
    exact h
  rw [hnil]
  rfl

theorem truncateEarliest_of_unique (labels : List String) (s : String) (l0 : String) (i0 : Nat)
    (hmem : l0 ∈ labels)
    (hidx : subIndex (lowerChars s) l0.data = some i0)
    (huniq : ∀ l ∈ labels, (subIndex (lowerChars s) l.data).isSome = true → l = l0) :
    truncateEarliest labels s = takeChars s i0 := by
  unfold truncateEarliest
  have hall : ∀ j ∈ labels.filterMap (fun lab => subIndex (lowerChars s) lab.data), j = i0 := by
    intro j hj
    obtain ⟨l, hl, hfl⟩ := List.mem_filterMap.mp hj
    have hl0 : l = l0 := huniq l hl (by rw [hfl]; rfl)
    subst hl0
    rw [hidx] at hfl
    exact (Option.some.inj hfl).symm
  have hm : i0 ∈ labels.filterMap (fun lab => subIndex (lowerChars s) lab.data) :=
    List.mem_filterMap.mpr ⟨l0, hmem, hidx⟩
  rw [minNat?_const _ i0 hm hall]

/-- Under a unique occurring label, the order-dependent truncation agrees
with the spec's earliest-occurrence truncation, for every iteration order
of the label set. -/
theorem truncateFirst_eq_earliest (order : List String) (s : String)
    (hperm : order.Perm ALL_LABELS)
    (huniq : ∀ l1 ∈ ALL_LABELS, ∀ l2 ∈ ALL_LABELS,
        (subIndex (lowerChars s) l1.data).isSome = true →
        (subIndex (lowerChars s) l2.data).isSome = true → l1 = l2) :
    truncateFirst order s = truncateEarliest ALL_LABELS s := by
  by_cases hex : ∃ l ∈ ALL_LABELS, (subIndex (lowerChars s) l.data).isSome = true
  · obtain ⟨l0, hl0, hsome⟩ := hex
    obtain ⟨i0, hidx⟩ := Option.isSome_iff_exists.mp hsome
    rw [truncateFirst_of_unique order s l0 i0 (hperm.mem_iff.mpr hl0) hidx
        (fun l hl hs => huniq l (hperm.mem_iff.mp hl) l0 hl0 hs hsome),
      truncateEarliest_of_unique ALL_LABELS s l0 i0 hl0 hidx
        (fun l hl hs => huniq l hl l0 hl0 hs hsome)]
  · push_neg at hex
    rw [truncateFirst_of_none order s
        (fun l hl => Option.not_isSome_iff_eq_none.mp
          (by simpa using hex l (hperm.mem_iff.mp hl))),
      truncateEarliest_of_none ALL_LABELS s
        (fun l hl => Option.not_isSome_iff_eq_none.mp (by simpa using hex l hl))]

/-- C4 amended: invoice-number normalization truncates at the occurrence
of whichever configured label comes first in the label set's unspecified
iteration order; whenever at most one configured label occurs in the raw
value this coincides with the claimed earliest-occurrence truncation, and
the PP-token / digit-run / unchanged cascade is as described — in
particular "1234567" normalizes to "PP1234567". -/
theorem invoiceNoNormalizeAmended (order : List String) (s : String)
    (hperm : order.Perm ALL_LABELS)
    (huniq : ∀ l1 ∈ ALL_LABELS, ∀ l2 ∈ ALL_LABELS,
        (subIndex (lowerChars s) l1.data).isSome = true →
        (subIndex (lowerChars s) l2.data).isSome = true → l1 = l2) :
    normalize_bill_data_ord order (some s) "invoice_no" = some (spec_normalize_invoice s) := by
  by_cases hs : s = ""
  · subst hs
    have hspec : spec_normalize_invoice "" = "" := by decide
    simp [normalize_bill_data_ord, hspec]
  · simp only [normalize_bill_data_ord, if_neg hs, if_pos rfl]
    unfold invoiceNoNormalize spec_normalize_invoice
    rw [truncateFirst_eq_earliest order s hperm huniq]
    simp

/-- Witness for the amended C4 at the digit-prepend example "1234567". -/
theorem invoiceNoNormalizeAmended_witness :
    normalize_bill_data_ord ALL_LABELS (some "1234567") "invoice_no"
        = some (spec_normalize_invoice "1234567") ∧
    spec_normalize_invoice "1234567" = "PP1234567" :=
  ⟨invoiceNoNormalizeAmended ALL_LABELS "1234567" (List.Perm.refl _) (by decide), by decide⟩
